import Mathlib

/-!
Verification development for the in-memory blockchain backend
(`src/base_layer/core/src/chain_storage/memory_db/memory_db.rs`).

The Rust source is shallowly embedded: `HashMap`s become association lists
with replace-on-insert semantics, the `MemDbVec` checkpoint vector becomes a
`List`, machine integers become `Nat` (all values involved are small; the
only arithmetic is length bookkeeping, far from any overflow boundary), and
fallible paths return `Except`.  A Rust panic (from `.expect`) is modelled
as the distinct failure value `WriteFailure.rustPanic`.  The MMR caches
(`MmrCache` from `tari_mmr`) are not observed by any statement proved here,
and their `update()` calls can only fail on lock poisoning, which a pure
model cannot exhibit; they are therefore not part of the state.
-/

namespace TariMemDb

/-- Abstract 32-byte hash values are modelled as natural numbers. -/
abbrev Hash := Nat

/-- Proof-of-work algorithm tag (`proof_of_work::PowAlgorithm`). -/
inductive PowAlgorithm
  | Monero
  | Blake
deriving DecidableEq

/-- Block header, reduced to the fields the backend reads: its hash
(`v.hash()`, modelled as an abstract field), its timestamp, its
proof-of-work algorithm and its target difficulty. -/
structure BlockHeader where
  hashVal : Hash
  timestamp : Nat
  pow_algo : PowAlgorithm
  target_difficulty : Nat
deriving DecidableEq

/-- Transaction output, reduced to an abstract commitment and the hash of
its range proof (`v.proof().hash()`). -/
structure TransactionOutput where
  commitment : Nat
  proofHash : Hash
deriving DecidableEq

/-- Transaction kernels are opaque to every claim; an abstract value. -/
abbrev TransactionKernel := Nat

/-- Orphan blocks are opaque to every claim; an abstract value. -/
abbrev Block := Nat

/-- A value stored in an MMR-backed map together with its leaf index
(`MerkleNode<T>` in the source). -/
structure MerkleNode (α : Type) where
  index : Nat
  value : α
deriving DecidableEq

/-- Association list standing in for `HashMap<Nat-like key, α>`.  Keys are
kept unique by the replace-on-insert `mapInsert`. -/
abbrev MapN (α : Type) := List (Nat × α)

/-- Lookup by key, first match (maps built by `mapInsert` have unique keys). -/
def mapLookup {α : Type} : MapN α → Nat → Option α
  | [], _ => none
  | p :: rest, k => if p.1 = k then some p.2 else mapLookup rest k

/-- Remove every entry with the given key (`HashMap::remove`). -/
def mapRemove {α : Type} : MapN α → Nat → MapN α
  | [], _ => []
  | p :: rest, k => if p.1 = k then mapRemove rest k else p :: mapRemove rest k

/-- Insert with replacement (`HashMap::insert`). -/
def mapInsert {α : Type} (m : MapN α) (k : Nat) (v : α) : MapN α :=
  (k, v) :: mapRemove m k

/-- Modelled from the spec: `tari_mmr::MerkleCheckPoint` is not under
`src/`.  Spec section 3 gives the record
`{nodes_added: ordered list of leaf hashes, nodes_deleted: ordered list of
leaf indices, accumulated_nodes_added}` with the accumulated count equal to
the sum of additions over this and all earlier checkpoints. -/
structure MerkleCheckPoint where
  nodes_added : List Hash
  nodes_deleted : List Nat
  prev_accumulated : Nat
deriving DecidableEq

namespace MerkleCheckPoint

/-- Accumulated leaves through this checkpoint (spec section 3). -/
def accumulated_nodes_added_count (cp : MerkleCheckPoint) : Nat :=
  cp.prev_accumulated + cp.nodes_added.length

/-- Append a leaf hash to the working additions. -/
def push_addition (cp : MerkleCheckPoint) (h : Hash) : MerkleCheckPoint :=
  { cp with nodes_added := cp.nodes_added ++ [h] }

/-- Append a deleted leaf index to the working deletions. -/
def push_deletion (cp : MerkleCheckPoint) (i : Nat) : MerkleCheckPoint :=
  { cp with nodes_deleted := cp.nodes_deleted ++ [i] }

/-- Start a fresh working checkpoint, carrying the accumulated count
forward (spec section 4.3, checkpoint creation). -/
def reset (cp : MerkleCheckPoint) : MerkleCheckPoint :=
  ⟨[], [], cp.accumulated_nodes_added_count⟩

/-- Reset the working checkpoint from a (tail) checkpoint (spec section
4.3, rewind). -/
def reset_to (_cp other : MerkleCheckPoint) : MerkleCheckPoint :=
  ⟨[], [], other.accumulated_nodes_added_count⟩

end MerkleCheckPoint

/-- Metadata keys (`db_transaction::MetadataKey`). -/
inductive MetadataKey
  | ChainHeight
  | BestBlock
  | AccumulatedWork
  | PruningHorizon
deriving DecidableEq

/-- The `k as u32` cast used when storing metadata; any injective encoding
is faithful since the discriminants are only used as map keys. -/
def MetadataKey.toIndex : MetadataKey → Nat
  | .ChainHeight => 0
  | .BestBlock => 1
  | .AccumulatedWork => 2
  | .PruningHorizon => 3

/-- Metadata values (`db_transaction::MetadataValue`). -/
inductive MetadataValue
  | ChainHeight (h : Option Nat)
  | BestBlock (h : Option Hash)
  | AccumulatedWork (d : Option Nat)
  | PruningHorizon (n : Nat)
deriving DecidableEq

/-- Database keys (`db_transaction::DbKey`). -/
inductive DbKey
  | Metadata (k : MetadataKey)
  | BlockHeader (height : Nat)
  | BlockHash (h : Hash)
  | UnspentOutput (h : Hash)
  | SpentOutput (h : Hash)
  | TransactionKernel (h : Hash)
  | OrphanBlock (h : Hash)
deriving DecidableEq

/-- Insert payloads (`db_transaction::DbKeyValuePair`). -/
inductive DbKeyValuePair
  | Metadata (k : MetadataKey) (v : MetadataValue)
  | BlockHeader (height : Nat) (v : TariMemDb.BlockHeader)
  | UnspentOutput (h : Hash) (v : TransactionOutput) (update_mmr : Bool)
  | TransactionKernel (h : Hash) (v : TariMemDb.TransactionKernel) (update_mmr : Bool)
  | OrphanBlock (h : Hash) (v : TariMemDb.Block)
deriving DecidableEq

/-- MMR tree selector (`db_transaction::MmrTree`). -/
inductive MmrTree
  | Utxo
  | Kernel
  | RangeProof
deriving DecidableEq

/-- Write operations (`db_transaction::WriteOperation`). -/
inductive WriteOperation
  | Insert (p : DbKeyValuePair)
  | Delete (k : DbKey)
  | Spend (k : DbKey)
  | UnSpend (k : DbKey)
  | CreateMmrCheckpoint (t : MmrTree)
  | RewindMmr (t : MmrTree) (steps_back : Nat)
deriving DecidableEq

/-- Error taxonomy (`error::ChainStorageError`), restricted to the variants
the embedded code can produce. -/
inductive ChainStorageError
  | AccessError (msg : String)
  | InvalidOperation (msg : String)
  | UnspendableInput
  | UnspendError
  | OutOfRange
  | UnexpectedResult (msg : String)
  | InvalidQuery (msg : String)
deriving DecidableEq

/-- A write either fails with a returned error or aborts in a Rust panic
(the `.expect` in `rewind_checkpoints`). -/
inductive WriteFailure
  | chain (e : ChainStorageError)
  | rustPanic (msg : String)
deriving DecidableEq

/-- The state of `InnerDatabase`, minus the derived `MmrCache` fields (not
observed by any claim; see the file header). -/
structure Db where
  metadata : MapN MetadataValue
  headers : MapN BlockHeader
  block_hashes : MapN Nat
  utxos : MapN (MerkleNode TransactionOutput)
  stxos : MapN (MerkleNode TransactionOutput)
  kernels : MapN TransactionKernel
  orphans : MapN Block
  utxo_checkpoints : List MerkleCheckPoint
  curr_utxo_checkpoint : MerkleCheckPoint
  kernel_checkpoints : List MerkleCheckPoint
  curr_kernel_checkpoint : MerkleCheckPoint
  range_proof_checkpoints : List MerkleCheckPoint
  curr_range_proof_checkpoint : MerkleCheckPoint
deriving DecidableEq

/-- A freshly created working checkpoint over an empty history
(`MerkleCheckPoint::new(Vec::new(), Bitmap::create(), 0)`). -/
def emptyCheckpoint : MerkleCheckPoint := ⟨[], [], 0⟩

/-- `InnerDatabase::new` with no prior checkpoints: every map empty, every
working checkpoint fresh with accumulated count 0. -/
def emptyDb : Db where
  metadata := []
  headers := []
  block_hashes := []
  utxos := []
  stxos := []
  kernels := []
  orphans := []
  utxo_checkpoints := []
  curr_utxo_checkpoint := emptyCheckpoint
  kernel_checkpoints := []
  curr_kernel_checkpoint := emptyCheckpoint
  range_proof_checkpoints := []
  curr_range_proof_checkpoint := emptyCheckpoint

/-- Scan of `find_range_proof_leaf_index`: walk the committed checkpoints
accumulating `|nodes_added|`, returning `accumulator + position` at the
first checkpoint whose additions contain the hash, then scan the working
checkpoint the same way.  (`position(|h| *h == hash)` is the first index.) -/
def findRPAux (hash : Hash) (working : MerkleCheckPoint) :
    List MerkleCheckPoint → Nat → Option Nat
  | [], accum => (working.nodes_added.findIdx? (fun h => h = hash)).map (accum + ·)
  | cp :: rest, accum =>
    match cp.nodes_added.findIdx? (fun h => h = hash) with
    | some leaf_index => some (accum + leaf_index)
    | none => findRPAux hash working rest (accum + cp.nodes_added.length)

/-- `find_range_proof_leaf_index` from the source: the leaf index that the
range-proof hash occupies (or will occupy) in the range-proof MMR. -/
def find_range_proof_leaf_index (db : Db) (hash : Hash) : Option Nat :=
  findRPAux hash db.curr_range_proof_checkpoint db.range_proof_checkpoints 0

/-- `spend_utxo`: move the record from `utxos` to `stxos`, pushing its leaf
index onto the working UTXO checkpoint deletions; `none` when absent
(the source returns `false`). -/
def spend_utxo (db : Db) (hash : Hash) : Option Db :=
  match mapLookup db.utxos hash with
  | none => none
  | some utxo =>
    some { db with
      utxos := mapRemove db.utxos hash
      curr_utxo_checkpoint := db.curr_utxo_checkpoint.push_deletion utxo.index
      stxos := mapInsert db.stxos hash utxo }

/-- `unspend_stxo`: move the record from `stxos` back to `utxos`; `none`
when absent (the source returns `false`). -/
def unspend_stxo (db : Db) (hash : Hash) : Option Db :=
  match mapLookup db.stxos hash with
  | none => none
  | some stxo =>
    some { db with
      stxos := mapRemove db.stxos hash
      utxos := mapInsert db.utxos hash stxo }

/-- `rewind_checkpoint_index`: the checkpoint count remaining after a
rewind (`cp_count - steps_back` when positive, else `1`). -/
def rewind_checkpoint_index (cp_count steps_back : Nat) : Nat :=
  if steps_back < cp_count then cp_count - steps_back else 1

/-- `rewind_checkpoints`: truncate (`MemDbVec::truncate` is a no-op beyond
the current length, hence `List.take`), then read the new tail checkpoint;
the source `.expect`s it, which panics when no checkpoint exists. -/
def rewind_checkpoints (checkpoints : List MerkleCheckPoint) (steps_back : Nat) :
    Except WriteFailure (List MerkleCheckPoint × MerkleCheckPoint) :=
  let cp_count := checkpoints.length
  let rewind_len := rewind_checkpoint_index cp_count steps_back
  let truncated := checkpoints.take rewind_len
  match truncated[rewind_len - 1]? with
  | some last_cp => .ok (truncated, last_cp)
  | none =>
    .error (.rustPanic "rewind_checkpoint_index should ensure that all checkpoints cannot be removed")

/-- `fetch_mmr_nodes_added_count`: reads the checkpoint at index
`min(len, height + 1)` and falls back to 0 when that read is past the end.
This is a verbatim translation of the source, including its indexing. -/
def fetch_mmr_nodes_added_count (checkpoints : List MerkleCheckPoint) (height : Nat) : Nat :=
  let last_index := min checkpoints.length (height + 1)
  ((checkpoints[last_index]?).map (·.accumulated_nodes_added_count)).getD 0

/-- Dispatch of `fetch_mmr_node_count` over the three trees. -/
def fetch_mmr_node_count (db : Db) (tree : MmrTree) (height : Nat) : Nat :=
  match tree with
  | .Kernel => fetch_mmr_nodes_added_count db.kernel_checkpoints height
  | .Utxo => fetch_mmr_nodes_added_count db.utxo_checkpoints height
  | .RangeProof => fetch_mmr_nodes_added_count db.range_proof_checkpoints height

/-- One `WriteOperation` applied to the state, following the source's
`BlockchainBackend::write` dispatch arm by arm. -/
def applyOp (op : WriteOperation) (db : Db) : Except WriteFailure Db :=
  match op with
  | .Insert p =>
    match p with
    | .Metadata k v => .ok { db with metadata := mapInsert db.metadata k.toIndex v }
    | .BlockHeader k v =>
      if (mapLookup db.headers k).isSome then
        .error (.chain (.InvalidOperation "Duplicate key"))
      else
        .ok { db with
          block_hashes := mapInsert db.block_hashes v.hashVal k
          headers := mapInsert db.headers k v }
    | .UnspentOutput k v update_mmr =>
      if (mapLookup db.utxos k).isSome then
        .error (.chain (.InvalidOperation "Duplicate key"))
      else
        let proof_hash := v.proofHash
        let db1 :=
          if update_mmr then
            { db with
              curr_utxo_checkpoint := db.curr_utxo_checkpoint.push_addition k
              curr_range_proof_checkpoint := db.curr_range_proof_checkpoint.push_addition proof_hash }
          else db
        match find_range_proof_leaf_index db1 proof_hash with
        | some index => .ok { db1 with utxos := mapInsert db1.utxos k ⟨index, v⟩ }
        | none => .ok db1
    | .TransactionKernel k v update_mmr =>
      if (mapLookup db.kernels k).isSome then
        .error (.chain (.InvalidOperation "Duplicate key"))
      else
        let db1 :=
          if update_mmr then
            { db with curr_kernel_checkpoint := db.curr_kernel_checkpoint.push_addition k }
          else db
        .ok { db1 with kernels := mapInsert db1.kernels k v }
    | .OrphanBlock k v => .ok { db with orphans := mapInsert db.orphans k v }
  | .Delete key =>
    match key with
    | .Metadata _ => .ok db
    | .BlockHeader k =>
      match mapLookup db.headers k with
      | some v =>
        .ok { db with
          headers := mapRemove db.headers k
          block_hashes := mapRemove db.block_hashes v.hashVal }
      | none => .ok db
    | .BlockHash h =>
      match mapLookup db.block_hashes h with
      | some i =>
        .ok { db with
          block_hashes := mapRemove db.block_hashes h
          headers := mapRemove db.headers i }
      | none => .ok db
    | .UnspentOutput k => .ok { db with utxos := mapRemove db.utxos k }
    | .SpentOutput k => .ok { db with stxos := mapRemove db.stxos k }
    | .TransactionKernel k => .ok { db with kernels := mapRemove db.kernels k }
    | .OrphanBlock k => .ok { db with orphans := mapRemove db.orphans k }
  | .Spend key =>
    match key with
    | .UnspentOutput hash =>
      match spend_utxo db hash with
      | some db1 => .ok db1
      | none => .error (.chain .UnspendableInput)
    | _ => .error (.chain (.InvalidOperation "Only UTXOs can be spent"))
  | .UnSpend key =>
    match key with
    | .SpentOutput hash =>
      match unspend_stxo db hash with
      | some db1 => .ok db1
      | none => .error (.chain .UnspendError)
    | _ => .error (.chain (.InvalidOperation "Only STXOs can be unspent"))
  | .CreateMmrCheckpoint t =>
    match t with
    | .Kernel =>
      .ok { db with
        kernel_checkpoints := db.kernel_checkpoints ++ [db.curr_kernel_checkpoint]
        curr_kernel_checkpoint := db.curr_kernel_checkpoint.reset }
    | .Utxo =>
      .ok { db with
        utxo_checkpoints := db.utxo_checkpoints ++ [db.curr_utxo_checkpoint]
        curr_utxo_checkpoint := db.curr_utxo_checkpoint.reset }
    | .RangeProof =>
      .ok { db with
        range_proof_checkpoints := db.range_proof_checkpoints ++ [db.curr_range_proof_checkpoint]
        curr_range_proof_checkpoint := db.curr_range_proof_checkpoint.reset }
  | .RewindMmr t steps_back =>
    match t with
    | .Kernel =>
      match rewind_checkpoints db.kernel_checkpoints steps_back with
      | .ok (cps, last_cp) =>
        .ok { db with
          kernel_checkpoints := cps
          curr_kernel_checkpoint := db.curr_kernel_checkpoint.reset_to last_cp }
      | .error e => .error e
    | .Utxo =>
      match rewind_checkpoints db.utxo_checkpoints steps_back with
      | .ok (cps, last_cp) =>
        .ok { db with
          utxo_checkpoints := cps
          curr_utxo_checkpoint := db.curr_utxo_checkpoint.reset_to last_cp }
      | .error e => .error e
    | .RangeProof =>
      match rewind_checkpoints db.range_proof_checkpoints steps_back with
      | .ok (cps, last_cp) =>
        .ok { db with
          range_proof_checkpoints := cps
          curr_range_proof_checkpoint := db.curr_range_proof_checkpoint.reset_to last_cp }
      | .error e => .error e

/-- `write`: apply the operations in list order, aborting on the first
failure (`?`/`return Err` in the source loop). -/
def write : List WriteOperation → Db → Except WriteFailure Db
  | [], db => .ok db
  | op :: rest, db =>
    match applyOp op db with
    | .ok db1 => write rest db1
    | .error e => .error e

/-- `fetch_chain_height`: the metadata entry under the `ChainHeight` key,
when it holds a `ChainHeight` value. -/
def fetch_chain_height (db : Db) : Option Nat :=
  match mapLookup db.metadata MetadataKey.ChainHeight.toIndex with
  | some (.ChainHeight h) => h
  | _ => none

/-- `fetch_last_header`: reads the header stored under key
`headers.len() - 1` (and `none` on an empty map). -/
def fetch_last_header (db : Db) : Option BlockHeader :=
  let header_count := db.headers.length
  if 1 ≤ header_count then mapLookup db.headers (header_count - 1) else none

/-- Descending header walk of `fetch_target_difficulties`: from height `h`
down to 0, require each header to exist, prepend matching
`(timestamp, target_difficulty)` pairs, and stop as soon as the collection
reaches `block_window` (checked after each push). -/
def tdLoop (headers : MapN BlockHeader) (algo : PowAlgorithm) (block_window : Nat) :
    Nat → List (Nat × Nat) → Except ChainStorageError (List (Nat × Nat))
  | 0, acc =>
    match mapLookup headers 0 with
    | none => .error (.InvalidQuery "Cannot retrieve header.")
    | some hdr =>
      .ok (if hdr.pow_algo = algo then (hdr.timestamp, hdr.target_difficulty) :: acc else acc)
  | h + 1, acc =>
    match mapLookup headers (h + 1) with
    | none => .error (.InvalidQuery "Cannot retrieve header.")
    | some hdr =>
      if hdr.pow_algo = algo then
        let acc2 := (hdr.timestamp, hdr.target_difficulty) :: acc
        if block_window ≤ acc2.length then .ok acc2 else tdLoop headers algo block_window h acc2
      else tdLoop headers algo block_window h acc

/-- `fetch_target_difficulties`: requires the chain height metadata, then
walks headers downward from `height` when `height ≤ tip_height`. -/
def fetch_target_difficulties (db : Db) (pow_algo : PowAlgorithm) (height : Nat)
    (block_window : Nat) : Except ChainStorageError (List (Nat × Nat)) :=
  match fetch_chain_height db with
  | none => .error (.InvalidQuery "Cannot retrieve chain height. Blockchain DB is empty")
  | some tip_height =>
    if height ≤ tip_height then tdLoop db.headers pow_algo block_window height []
    else .ok []

/-- The spec's description of range-proof leaf-index resolution, written
from its words (spec section 4.3): scanning a checkpoint sequence in
order, the index of a hash is the sum of `|nodes_added|` over all earlier
checkpoints plus the hash's position within the first checkpoint whose
additions contain it. -/
def specRangeProofIndex (hash : Hash) : List MerkleCheckPoint → Option Nat
  | [] => none
  | cp :: rest =>
    match cp.nodes_added.findIdx? (fun h => h = hash) with
    | some i => some i
    | none => (specRangeProofIndex hash rest).map (cp.nodes_added.length + ·)

/-- The spec's description of the target-difficulty scan, written from its
words (spec section 4.6): the oldest-first list of
`(timestamp, target_difficulty)` pairs of the headers at heights
`0..=height` whose proof-of-work algorithm matches. -/
def specTargetDifficulties (algo : PowAlgorithm) (headers : MapN BlockHeader) :
    Nat → List (Nat × Nat)
  | 0 =>
    match mapLookup headers 0 with
    | some hdr => if hdr.pow_algo = algo then [(hdr.timestamp, hdr.target_difficulty)] else []
    | none => []
  | h + 1 =>
    specTargetDifficulties algo headers h ++
      (match mapLookup headers (h + 1) with
       | some hdr => if hdr.pow_algo = algo then [(hdr.timestamp, hdr.target_difficulty)] else []
       | none => [])

/-- The last `n` elements of a list, in order. -/
def lastN (n : Nat) (l : List α) : List α := l.drop (l.length - n)

/-- The keys of an association-list map are pairwise distinct.  Every map
reachable through `mapInsert`/`mapRemove` from the empty map satisfies
this; it is the standing well-formedness of a `HashMap` image. -/
def keysNodup {α : Type} (m : MapN α) : Prop := (m.map Prod.fst).Nodup

/-- Any two stored headers with equal hashes are equal (the hypothesis of
the header/block-hash consistency claim), as an executable check. -/
def storedHeadersHashDistinct (db : Db) : Bool :=
  db.headers.all fun p =>
    db.headers.all fun q => !(decide (p.2.hashVal = q.2.hashVal)) || decide (p.2 = q.2)

/-- Agreement between the header map and the block-hash index: every index
entry points at a stored header carrying that hash, and every stored
header is indexed under its hash at its height. -/
def headerIndexConsistent (db : Db) : Bool :=
  (db.block_hashes.all fun p =>
    decide ((mapLookup db.headers p.2).map BlockHeader.hashVal = some p.1)) &&
  (db.headers.all fun q =>
    decide (mapLookup db.block_hashes q.2.hashVal = some q.1))

/-- A `BlockHeader` insert is safe when its hash is not yet in the
block-hash index (so no header ever occupies two heights); all other
operations are unconditionally safe for the header/index invariant. -/
def safeOp : WriteOperation → Db → Bool
  | .Insert (.BlockHeader _ v), db => (mapLookup db.block_hashes v.hashVal).isNone
  | _, _ => true

/-- Every operation of the list is safe in the state it actually runs in. -/
def safeOps : List WriteOperation → Db → Bool
  | [], _ => true
  | op :: rest, db =>
    safeOp op db &&
      (match applyOp op db with
       | .ok db1 => safeOps rest db1
       | .error _ => true)

/-- Scenario S6 of the spec: 100 UTXO inserts with a UTXO checkpoint
sealed after every 10. -/
def s6_ops : List WriteOperation :=
  (List.range 10).flatMap fun b =>
    ((List.range 10).map fun i =>
      WriteOperation.Insert (.UnspentOutput (10 * b + i) ⟨10 * b + i, 10 * b + i⟩ true))
      ++ [WriteOperation.CreateMmrCheckpoint .Utxo]

/-- Two single-UTXO blocks: two committed UTXO checkpoints holding one
leaf each. -/
def twoCheckpointOps : List WriteOperation :=
  [.Insert (.UnspentOutput 1 ⟨1, 11⟩ true), .CreateMmrCheckpoint .Utxo,
   .Insert (.UnspentOutput 2 ⟨2, 12⟩ true), .CreateMmrCheckpoint .Utxo]

/-- A concrete output used by the duplicate-insert probe. -/
def dupProbeOut : TransactionOutput := ⟨0, 7⟩

/-- State after inserting output 5 and spending it: key 5 sits in the STXO
map and not in the UTXO map. -/
def dupProbeDb : Db :=
  ((write [.Insert (.UnspentOutput 5 dupProbeOut true), .Spend (.UnspentOutput 5)]
    emptyDb).toOption).getD emptyDb

/-- A concrete output used by the spend/unspend witnesses. -/
def spendOut : TransactionOutput := ⟨3, 9⟩

/-- State holding the unspent output 8 (leaf index 0), used by the
spend/unspend witnesses. -/
def spendProbeDb : Db :=
  ((write [.Insert (.UnspentOutput 8 spendOut true)] emptyDb).toOption).getD emptyDb

/-- A concrete header used by the header-index counterexample. -/
def c6Hdr : BlockHeader := ⟨77, 0, .Blake, 1⟩

/-- State after inserting the same header at heights 0 and 1 (one
transaction, both inserts succeed). -/
def c6Db : Db :=
  ((write [.Insert (.BlockHeader 0 c6Hdr), .Insert (.BlockHeader 1 c6Hdr)]
    emptyDb).toOption).getD emptyDb

/-- Transaction used by the header-index witness: two distinct headers
inserted and the first deleted again. -/
def c6WitnessOps : List WriteOperation :=
  [.Insert (.BlockHeader 0 ⟨50, 0, .Blake, 1⟩),
   .Insert (.BlockHeader 1 ⟨51, 1, .Monero, 2⟩),
   .Delete (.BlockHeader 0)]

/-- Final state of the header-index witness transaction. -/
def c6WitnessDb : Db := ((write c6WitnessOps emptyDb).toOption).getD emptyDb

/-- Chain with tip height 0 and a single Blake header at height 0. -/
def c9Db : Db :=
  ((write [.Insert (.Metadata .ChainHeight (.ChainHeight (some 0))),
           .Insert (.BlockHeader 0 ⟨40, 5, .Blake, 9⟩)] emptyDb).toOption).getD emptyDb

/-- Chain with tip height 2 and Blake headers at heights 0, 1, 2 (distinct
timestamps and difficulties), used by the target-difficulty witness. -/
def c9WitnessDb : Db :=
  ((write [.Insert (.Metadata .ChainHeight (.ChainHeight (some 2))),
           .Insert (.BlockHeader 0 ⟨40, 5, .Blake, 9⟩),
           .Insert (.BlockHeader 1 ⟨41, 6, .Monero, 10⟩),
           .Insert (.BlockHeader 2 ⟨42, 7, .Blake, 11⟩)] emptyDb).toOption).getD emptyDb

/-- Headers stored only at heights 1 and 2 (heights do not start at 0). -/
def c10Db : Db :=
  ((write [.Insert (.BlockHeader 1 ⟨101, 1, .Blake, 1⟩),
           .Insert (.BlockHeader 2 ⟨102, 2, .Blake, 1⟩)] emptyDb).toOption).getD emptyDb

/-- Headers stored at the contiguous heights 0 and 1, used by the
last-header witness. -/
def c10WitnessDb : Db :=
  ((write [.Insert (.BlockHeader 0 ⟨60, 0, .Blake, 1⟩),
           .Insert (.BlockHeader 1 ⟨61, 1, .Monero, 2⟩)] emptyDb).toOption).getD emptyDb

end TariMemDb

deriving instance DecidableEq for Except

namespace TariMemDb

/-! ## Association-list map lemmas -/

@[simp]
theorem mapLookup_nil {α : Type} (k : Nat) : mapLookup ([] : MapN α) k = none := rfl

theorem mapLookup_cons {α : Type} (p : Nat × α) (m : MapN α) (k : Nat) :
    mapLookup (p :: m) k = if p.1 = k then some p.2 else mapLookup m k := rfl

@[simp]
theorem mapLookup_mapRemove_self {α : Type} (m : MapN α) (k : Nat) :
    mapLookup (mapRemove m k) k = none := by
  induction m with
  | nil => rfl
  | cons p rest ih =>
    by_cases h : p.1 = k <;> simp [mapRemove, mapLookup, h, ih]

theorem mapLookup_mapRemove_ne {α : Type} (m : MapN α) (k j : Nat) (h : j ≠ k) :
    mapLookup (mapRemove m k) j = mapLookup m j := by
  induction m with
  | nil => rfl
  | cons p rest ih =>
    by_cases hp : p.1 = k
    · have hkj : ¬(k = j) := by omega
      simp [mapRemove, mapLookup, hp, hkj, ih]
    · simp [mapRemove, mapLookup, hp, ih]

@[simp]
theorem mapLookup_mapInsert_self {α : Type} (m : MapN α) (k : Nat) (v : α) :
    mapLookup (mapInsert m k v) k = some v := by
  simp [mapInsert, mapLookup]

theorem mapLookup_mapInsert_ne {α : Type} (m : MapN α) (k j : Nat) (v : α) (h : j ≠ k) :
    mapLookup (mapInsert m k v) j = mapLookup m j := by
  have hk : k ≠ j := by omega
  simp [mapInsert, mapLookup, hk, mapLookup_mapRemove_ne m k j h]

theorem mapRemove_eq_self_of_lookup_none {α : Type} (m : MapN α) (k : Nat)
    (h : mapLookup m k = none) : mapRemove m k = m := by
  induction m with
  | nil => rfl
  | cons p rest ih =>
    rw [mapLookup_cons] at h
    by_cases hp : p.1 = k
    · simp [hp] at h
    · simp [hp] at h
      simp [mapRemove, hp, ih h]

theorem mem_of_mapLookup_eq_some {α : Type} {m : MapN α} {k : Nat} {v : α}
    (h : mapLookup m k = some v) : (k, v) ∈ m := by
  induction m with
  | nil => simp [mapLookup] at h
  | cons p rest ih =>
    rw [mapLookup_cons] at h
    by_cases hp : p.1 = k
    · rw [if_pos hp] at h
      obtain ⟨a, b⟩ := p
      obtain rfl : a = k := hp
      obtain rfl : b = v := by injection h
      exact List.mem_cons_self _ _
    · rw [if_neg hp] at h
      exact List.mem_cons_of_mem _ (ih h)

theorem mem_mapRemove {α : Type} {m : MapN α} {k : Nat} {p : Nat × α}
    (h : p ∈ mapRemove m k) : p ∈ m ∧ p.1 ≠ k := by
  induction m with
  | nil => simp [mapRemove] at h
  | cons q rest ih =>
    by_cases hq : q.1 = k
    · simp [mapRemove, hq] at h
      have := ih h
      exact ⟨List.mem_cons_of_mem _ this.1, this.2⟩
    · simp only [mapRemove, if_neg hq] at h
      rcases List.mem_cons.mp h with h1 | h2
      · subst h1
        exact ⟨List.mem_cons_self _ _, hq⟩
      · have := ih h2
        exact ⟨List.mem_cons_of_mem _ this.1, this.2⟩

theorem mem_mapInsert {α : Type} {m : MapN α} {k : Nat} {v : α} {p : Nat × α}
    (h : p ∈ mapInsert m k v) : p = (k, v) ∨ (p ∈ m ∧ p.1 ≠ k) := by
  rcases List.mem_cons.mp h with h1 | h2
  · exact Or.inl h1
  · exact Or.inr (mem_mapRemove h2)

/-! ## Claim C1 -/

/-- C1 (code bug evaluation): after inserting 100 UTXOs with a UTXO
checkpoint sealed after every 10 insertions (scenario S6), the committed
checkpoints do carry accumulated counts 10 (first) and 100 (tenth), yet
`fetch_mmr_node_count(Utxo, 0)` returns 20, and both
`fetch_mmr_node_count(Utxo, 9)` and `fetch_mmr_node_count(Utxo, 1000)`
return 0 — not the 10, 100, 100 the claim states.  The query reads the
checkpoint at index `min(len, height + 1)` instead of
`min(len - 1, height)`, contradicting its own doc comment ("Calculate the
total leaf node count upto a specified height"). -/
theorem fetch_mmr_node_count_s6_evaluation :
    (write s6_ops emptyDb).map (fun db =>
      (fetch_mmr_node_count db .Utxo 0, fetch_mmr_node_count db .Utxo 9,
       fetch_mmr_node_count db .Utxo 1000, db.utxo_checkpoints.length,
       ((db.utxo_checkpoints[0]?).map (·.accumulated_nodes_added_count)).getD 0,
       ((db.utxo_checkpoints[9]?).map (·.accumulated_nodes_added_count)).getD 0))
    = .ok (20, 0, 0, 10, 10, 100) := by decide

/-! ## Claim C5 -/

/-- C5 (code bug evaluation): with two committed UTXO checkpoints holding
one leaf each — a state reached by two inserts and two checkpoint seals —
`fetch_mmr_node_count(Utxo, 0) = 2` and `fetch_mmr_node_count(Utxo, 1) = 0`,
so the count is not non-decreasing in the height argument. -/
theorem fetch_mmr_node_count_not_monotone_evaluation :
    (write twoCheckpointOps emptyDb).map (fun db =>
      (fetch_mmr_node_count db .Utxo 0, fetch_mmr_node_count db .Utxo 1,
       decide (fetch_mmr_node_count db .Utxo 0 ≤ fetch_mmr_node_count db .Utxo 1)))
    = .ok (2, 0, false) := by decide

/-! ## Claim C4 -/

/-- C4 (code bug evaluation): on a fresh backend there are zero committed
checkpoints, and `RewindMmr(Utxo, 0)` — where `0 ≥ len(committed)` — does
not leave one committed checkpoint: `rewind_checkpoints` reaches the
`.expect` whose message asserts this cannot happen, i.e. the write panics. -/
theorem rewind_mmr_empty_checkpoints_panics :
    emptyDb.utxo_checkpoints.length = 0 ∧
    write [.RewindMmr .Utxo 0] emptyDb =
      .error (.rustPanic
        "rewind_checkpoint_index should ensure that all checkpoints cannot be removed") := by
  exact ⟨rfl, rfl⟩

/-! ## Claim C2 -/

/-- C2 (counterexample): key 5 is present in the STXO map and absent from
the UTXO map, yet a transaction inserting `UnspentOutput(5, ...)` succeeds
instead of failing with `InvalidOperation("Duplicate key")` — the
duplicate check only consults the UTXO map. -/
theorem insert_after_spend_succeeds_counterexample :
    (mapLookup dupProbeDb.stxos 5).isSome = true ∧
    mapLookup dupProbeDb.utxos 5 = none ∧
    (write [.Insert (.UnspentOutput 5 dupProbeOut true)] dupProbeDb).isOk = true := by decide

/-- C2 (amended): `Insert(UnspentOutput(k, v, update_mmr))` fails with
`InvalidOperation("Duplicate key")` exactly when `k` is already in the
UTXO map; when `k` is not in the UTXO map the transaction succeeds, even
if `k` is present in the STXO map. -/
theorem insert_duplicate_key_iff_in_utxos (db : Db) (k : Hash) (v : TransactionOutput)
    (u : Bool) :
    ((mapLookup db.utxos k).isSome = true →
      write [.Insert (.UnspentOutput k v u)] db =
        .error (.chain (.InvalidOperation "Duplicate key"))) ∧
    (mapLookup db.utxos k = none →
      (write [.Insert (.UnspentOutput k v u)] db).isOk = true) := by
  constructor
  · intro h
    simp [write, applyOp, h]
  · intro h
    have h' : (mapLookup db.utxos k).isSome = false := by simp [h]
    simp only [write, applyOp, h', Bool.false_eq_true, if_false]
    cases hf : find_range_proof_leaf_index
        (if u then
          { db with
            curr_utxo_checkpoint := db.curr_utxo_checkpoint.push_addition k
            curr_range_proof_checkpoint :=
              db.curr_range_proof_checkpoint.push_addition v.proofHash }
          else db) v.proofHash <;>
      simp [Except.isOk, Except.toBool]

/-- Witness for the amended C2 theorem: both branches exercised at
concrete states (key 5 spent in `dupProbeDb`, key 5 unspent after a fresh
insert). -/
theorem insert_duplicate_key_iff_in_utxos_witness :
    (write [.Insert (.UnspentOutput 5 dupProbeOut true)]
        (((write [.Insert (.UnspentOutput 5 dupProbeOut true)] emptyDb).toOption).getD emptyDb) =
      .error (.chain (.InvalidOperation "Duplicate key"))) ∧
    (write [.Insert (.UnspentOutput 5 dupProbeOut true)] dupProbeDb).isOk = true :=
  ⟨(insert_duplicate_key_iff_in_utxos _ 5 dupProbeOut true).1 (by decide),
   (insert_duplicate_key_iff_in_utxos dupProbeDb 5 dupProbeOut true).2 (by decide)⟩

/-! ## Claim C9 counterexample -/

/-- C9 (counterexample): with the chain height set, a matching header at
height 0, and `window = 0`, the scan returns one pair instead of zero —
the window check runs only after a push, so a zero window behaves as a
window of one. -/
theorem target_difficulties_window_zero_counterexample :
    fetch_target_difficulties c9Db .Blake 0 0 = .ok [(5, 9)] := by decide

/-! ## Claim C10 counterexample -/

/-- C10 (counterexample): with headers stored only at heights 1 and 2 —
heights that do not start at 0 — `fetch_last_header` does not return
`None`: it returns the header stored at height `len - 1 = 1`. -/
theorem fetch_last_header_noncontiguous_counterexample :
    c10Db.headers.all (fun p => decide (p.1 ≠ 0)) = true ∧
    c10Db.headers ≠ [] ∧
    fetch_last_header c10Db = some ⟨101, 1, .Blake, 1⟩ := by decide

/-! ## Range-proof index scan lemmas -/

theorem findIdx?_self_isSome {l : List Hash} {hash : Hash} (hx : hash ∈ l) :
    (l.findIdx? (fun h => h = hash)).isSome = true := by
  cases hf : l.findIdx? (fun h => h = hash) with
  | none =>
    have := List.findIdx?_eq_none_iff.mp hf hash hx
    simp at this
  | some i => rfl

theorem findRPAux_isSome_of_mem {hash : Hash} {w : MerkleCheckPoint}
    (hx : hash ∈ w.nodes_added) (l : List MerkleCheckPoint) (a : Nat) :
    (findRPAux hash w l a).isSome = true := by
  induction l generalizing a with
  | nil =>
    have hs := findIdx?_self_isSome hx
    cases hf : w.nodes_added.findIdx? (fun h => h = hash) with
    | none => rw [hf] at hs; simp at hs
    | some i => simp [findRPAux, hf]
  | cons cp rest ih =>
    cases hf : cp.nodes_added.findIdx? (fun h => h = hash) with
    | none => simp [findRPAux, hf]; exact ih _
    | some i => simp [findRPAux, hf]

theorem findRPAux_eq_spec (hash : Hash) (w : MerkleCheckPoint)
    (l : List MerkleCheckPoint) (a : Nat) :
    findRPAux hash w l a = (specRangeProofIndex hash (l ++ [w])).map (a + ·) := by
  induction l generalizing a with
  | nil =>
    cases hf : w.nodes_added.findIdx? (fun h => h = hash) with
    | none => simp [findRPAux, specRangeProofIndex, hf]
    | some i => simp [findRPAux, specRangeProofIndex, hf]
  | cons cp rest ih =>
    cases hf : cp.nodes_added.findIdx? (fun h => h = hash) with
    | none =>
      simp only [findRPAux, hf, List.cons_append, specRangeProofIndex]
      rw [ih]
      cases hs : specRangeProofIndex hash (rest ++ [w]) with
      | none => simp
      | some j => simp [Nat.add_assoc]
    | some i => simp [findRPAux, specRangeProofIndex, hf]

theorem find_range_proof_leaf_index_eq_spec (db : Db) (hash : Hash) :
    find_range_proof_leaf_index db hash =
      specRangeProofIndex hash
        (db.range_proof_checkpoints ++ [db.curr_range_proof_checkpoint]) := by
  rw [find_range_proof_leaf_index, findRPAux_eq_spec]
  cases hs : specRangeProofIndex hash
      (db.range_proof_checkpoints ++ [db.curr_range_proof_checkpoint]) with
  | none => rfl
  | some i => simp

/-! ## Claim C7 -/

/-- C7: spending an existing UTXO moves its record to the STXO map and
appends its leaf index to the working UTXO checkpoint deletions; spending
a missing UTXO fails with `UnspendableInput`; spending any non-UTXO key
fails with `InvalidOperation("Only UTXOs can be spent")`; unspending a
missing STXO fails with `UnspendError`. -/
theorem spend_unspend_error_semantics (db : Db) (hash : Hash) :
    (∀ node, mapLookup db.utxos hash = some node →
      write [.Spend (.UnspentOutput hash)] db =
        .ok { db with
          utxos := mapRemove db.utxos hash
          curr_utxo_checkpoint := db.curr_utxo_checkpoint.push_deletion node.index
          stxos := mapInsert db.stxos hash node }) ∧
    (mapLookup db.utxos hash = none →
      write [.Spend (.UnspentOutput hash)] db = .error (.chain .UnspendableInput)) ∧
    (∀ key : DbKey, (∀ x, key ≠ .UnspentOutput x) →
      write [.Spend key] db =
        .error (.chain (.InvalidOperation "Only UTXOs can be spent"))) ∧
    (mapLookup db.stxos hash = none →
      write [.UnSpend (.SpentOutput hash)] db = .error (.chain .UnspendError)) := by
  refine ⟨?_, ?_, ?_, ?_⟩
  · intro node h
    simp [write, applyOp, spend_utxo, h]
  · intro h
    simp [write, applyOp, spend_utxo, h]
  · intro key hk
    cases key with
    | UnspentOutput x => exact absurd rfl (hk x)
    | Metadata k => rfl
    | BlockHeader k => rfl
    | BlockHash k => rfl
    | SpentOutput k => rfl
    | TransactionKernel k => rfl
    | OrphanBlock k => rfl
  · intro h
    simp [write, applyOp, unspend_stxo, h]

/-- Witness for C7: all four behaviours at concrete states (output 8 with
leaf index 0 unspent in `spendProbeDb`; keys 99 absent everywhere). -/
theorem spend_unspend_error_semantics_witness :
    (write [.Spend (.UnspentOutput 8)] spendProbeDb =
      .ok { spendProbeDb with
        utxos := mapRemove spendProbeDb.utxos 8
        curr_utxo_checkpoint := spendProbeDb.curr_utxo_checkpoint.push_deletion 0
        stxos := mapInsert spendProbeDb.stxos 8 ⟨0, spendOut⟩ }) ∧
    (write [.Spend (.UnspentOutput 99)] spendProbeDb =
      .error (.chain .UnspendableInput)) ∧
    (write [.Spend (.BlockHeader 0)] spendProbeDb =
      .error (.chain (.InvalidOperation "Only UTXOs can be spent"))) ∧
    (write [.UnSpend (.SpentOutput 99)] spendProbeDb =
      .error (.chain .UnspendError)) :=
  ⟨(spend_unspend_error_semantics spendProbeDb 8).1 ⟨0, spendOut⟩ (by decide),
   (spend_unspend_error_semantics spendProbeDb 99).2.1 (by decide),
   (spend_unspend_error_semantics spendProbeDb 99).2.2.1 (.BlockHeader 0)
     (fun x h => nomatch h),
   (spend_unspend_error_semantics spendProbeDb 99).2.2.2 (by decide)⟩

/-! ## Claim C8 -/

/-- C8: after `Insert u; CreateMmrCheckpoint(Utxo); Spend u.hash;
CreateMmrCheckpoint(Utxo); UnSpend u.hash`, the UTXO record stored for
`u.hash` (in particular its `index` field) is exactly the record present
immediately after the insert; and in general `Spend` followed by `UnSpend`
moves the unchanged record out of and back into the UTXO map. -/
theorem leaf_index_stability (db : Db) (k : Hash) (v : TransactionOutput)
    (hk : mapLookup db.utxos k = none) :
    ((write [.Insert (.UnspentOutput k v true), .CreateMmrCheckpoint .Utxo,
             .Spend (.UnspentOutput k), .CreateMmrCheckpoint .Utxo,
             .UnSpend (.SpentOutput k)] db).map (fun d => mapLookup d.utxos k)
      = (write [.Insert (.UnspentOutput k v true)] db).map
          (fun d => mapLookup d.utxos k)) ∧
    ((write [.Insert (.UnspentOutput k v true)] db).map
        (fun d => (mapLookup d.utxos k).isSome) = .ok true) ∧
    (∀ db0 h node, mapLookup db0.utxos h = some node →
      (write [.Spend (.UnspentOutput h)] db0).map (fun d => mapLookup d.stxos h)
          = .ok (some node) ∧
      (write [.Spend (.UnspentOutput h), .UnSpend (.SpentOutput h)] db0).map
          (fun d => mapLookup d.utxos h) = .ok (some node)) := by
  have hmem : v.proofHash ∈
      (db.curr_range_proof_checkpoint.push_addition v.proofHash).nodes_added := by
    simp [MerkleCheckPoint.push_addition]
  have hsome := findRPAux_isSome_of_mem hmem
    db.range_proof_checkpoints 0
  obtain ⟨i, hi⟩ := Option.isSome_iff_exists.mp hsome
  have hfind : find_range_proof_leaf_index
      { db with
        curr_utxo_checkpoint := db.curr_utxo_checkpoint.push_addition k
        curr_range_proof_checkpoint :=
          db.curr_range_proof_checkpoint.push_addition v.proofHash }
      v.proofHash = some i := hi
  refine ⟨?_, ?_, ?_⟩
  · simp [write, applyOp, hk, hfind, spend_utxo, unspend_stxo,
      mapLookup_mapInsert_self, Except.map]
  · simp [write, applyOp, hk, hfind, Except.map]
  · intro db0 h node hl
    constructor
    · simp [write, applyOp, spend_utxo, hl, mapLookup_mapInsert_self, Except.map]
    · simp [write, applyOp, spend_utxo, unspend_stxo, hl,
        mapLookup_mapInsert_self, Except.map]

/-- Witness for C8: the insert-checkpoint-spend-checkpoint-unspend
round-trip on a fresh backend, and a concrete spend/unspend pair. -/
theorem leaf_index_stability_witness :
    ((write [.Insert (.UnspentOutput 3 ⟨1, 9⟩ true)] emptyDb).map
      (fun d => (mapLookup d.utxos 3).isSome) = .ok true) ∧
    ((write [.Spend (.UnspentOutput 8), .UnSpend (.SpentOutput 8)] spendProbeDb).map
      (fun d => mapLookup d.utxos 8) = .ok (some ⟨0, spendOut⟩)) :=
  ⟨(leaf_index_stability emptyDb 3 ⟨1, 9⟩ rfl).2.1,
   ((leaf_index_stability emptyDb 3 ⟨1, 9⟩ rfl).2.2 spendProbeDb 8 ⟨0, spendOut⟩
     (by decide)).2⟩

/-! ## Claim C3 -/

/-- C3: for a fresh key, `Insert(UnspentOutput(k, v, update_mmr))` resolves
the stored index by the checkpoint scan: when the range-proof hash occurs
in no committed and not in the working range-proof checkpoint (which
forces `update_mmr = false`), the write returns `Ok` without adding `k` to
the UTXO map; otherwise the stored record's index is the sum of
`|nodes_added|` over all earlier range-proof checkpoints plus the hash's
position within the first checkpoint containing it (the spec-side
`specRangeProofIndex` over committed checkpoints followed by the working
one). -/
theorem insert_unspent_output_range_proof_index (db : Db) (k : Hash)
    (v : TransactionOutput) (u : Bool) (hk : mapLookup db.utxos k = none) :
    let db1 := if u then
        { db with
          curr_utxo_checkpoint := db.curr_utxo_checkpoint.push_addition k
          curr_range_proof_checkpoint :=
            db.curr_range_proof_checkpoint.push_addition v.proofHash }
      else db
    (find_range_proof_leaf_index db1 v.proofHash = none →
      u = false ∧
      write [.Insert (.UnspentOutput k v u)] db = .ok db1 ∧
      mapLookup db1.utxos k = none) ∧
    (∀ i, find_range_proof_leaf_index db1 v.proofHash = some i →
      write [.Insert (.UnspentOutput k v u)] db =
        .ok { db1 with utxos := mapInsert db1.utxos k ⟨i, v⟩ } ∧
      specRangeProofIndex v.proofHash
        (db1.range_proof_checkpoints ++ [db1.curr_range_proof_checkpoint]) = some i) := by
  intro db1
  constructor
  · intro hnone
    have hu : u = false := by
      cases u with
      | false => rfl
      | true =>
        exfalso
        have hmem : v.proofHash ∈
            (db.curr_range_proof_checkpoint.push_addition v.proofHash).nodes_added := by
          simp [MerkleCheckPoint.push_addition]
        have := findRPAux_isSome_of_mem hmem db.range_proof_checkpoints 0
        have hd1 : db1 = { db with
            curr_utxo_checkpoint := db.curr_utxo_checkpoint.push_addition k
            curr_range_proof_checkpoint :=
              db.curr_range_proof_checkpoint.push_addition v.proofHash } := rfl
        rw [hd1] at hnone
        rw [find_range_proof_leaf_index] at hnone
        rw [hnone] at this
        simp at this
    subst hu
    have hd1 : db1 = db := rfl
    rw [hd1] at hnone ⊢
    refine ⟨rfl, ?_, hk⟩
    simp [write, applyOp, hk, hnone]
  · intro i hi
    constructor
    · simp only [write, applyOp, hk, Option.isSome_none, Bool.false_eq_true, if_false]
      rw [show (if u then
        { db with
          curr_utxo_checkpoint := db.curr_utxo_checkpoint.push_addition k
          curr_range_proof_checkpoint :=
            db.curr_range_proof_checkpoint.push_addition v.proofHash }
        else db) = db1 from rfl]
      rw [hi]
    · rw [← find_range_proof_leaf_index_eq_spec]
      exact hi

/-- Witness for C3: inserting output (commitment 0, range-proof hash 9)
under key 2 with `update_mmr = true` on a fresh backend stores leaf index
0, matching the spec-side scan. -/
theorem insert_unspent_output_range_proof_index_witness :
    (write [.Insert (.UnspentOutput 2 ⟨0, 9⟩ true)] emptyDb =
      .ok { emptyDb with
        curr_utxo_checkpoint := ⟨[2], [], 0⟩
        curr_range_proof_checkpoint := ⟨[9], [], 0⟩
        utxos := [(2, ⟨0, ⟨0, 9⟩⟩)] }) ∧
    specRangeProofIndex 9 ([] ++ [(⟨[9], [], 0⟩ : MerkleCheckPoint)]) = some 0 :=
  (insert_unspent_output_range_proof_index emptyDb 2 ⟨0, 9⟩ true rfl).2 0 (by decide)

/-! ## Claim C6 counterexample -/

theorem headerIndexConsistent_iff (db : Db) :
    headerIndexConsistent db = true ↔
      ((∀ p ∈ db.block_hashes,
          (mapLookup db.headers p.2).map BlockHeader.hashVal = some p.1) ∧
       (∀ q ∈ db.headers, mapLookup db.block_hashes q.2.hashVal = some q.1)) := by
  simp [headerIndexConsistent, List.all_eq_true]

theorem headerIndexConsistent_congr {db db' : Db}
    (hh : db'.headers = db.headers) (hb : db'.block_hashes = db.block_hashes)
    (h : headerIndexConsistent db = true) : headerIndexConsistent db' = true := by
  rw [headerIndexConsistent_iff] at h ⊢
  rw [hh, hb]
  exact h

theorem consistent_insert_header {db : Db} {k : Nat} {v : BlockHeader}
    (hc : headerIndexConsistent db = true)
    (hdup : mapLookup db.headers k = none)
    (hsafe : mapLookup db.block_hashes v.hashVal = none) :
    headerIndexConsistent
      { db with
        block_hashes := mapInsert db.block_hashes v.hashVal k
        headers := mapInsert db.headers k v } = true := by
  rw [headerIndexConsistent_iff] at hc ⊢
  obtain ⟨h1, h2⟩ := hc
  constructor
  · intro p hp
    rcases mem_mapInsert hp with rfl | ⟨hpm, hpne⟩
    · simp
    · have hold := h1 p hpm
      have hne : p.2 ≠ k := by
        intro he
        rw [he, hdup] at hold
        simp at hold
      rw [mapLookup_mapInsert_ne _ _ _ _ hne]
      exact hold
  · intro q hq
    rcases mem_mapInsert hq with rfl | ⟨hqm, hqne⟩
    · simp
    · have hold := h2 q hqm
      have hne : q.2.hashVal ≠ v.hashVal := by
        intro he
        rw [he, hsafe] at hold
        exact Option.noConfusion hold
      rw [mapLookup_mapInsert_ne _ _ _ _ hne]
      exact hold

theorem consistent_delete_header {db : Db} {k : Nat} {v : BlockHeader}
    (hc : headerIndexConsistent db = true)
    (hl : mapLookup db.headers k = some v) :
    headerIndexConsistent
      { db with
        headers := mapRemove db.headers k
        block_hashes := mapRemove db.block_hashes v.hashVal } = true := by
  rw [headerIndexConsistent_iff] at hc ⊢
  obtain ⟨h1, h2⟩ := hc
  have hkv : (k, v) ∈ db.headers := mem_of_mapLookup_eq_some hl
  have hbk : mapLookup db.block_hashes v.hashVal = some k := h2 (k, v) hkv
  constructor
  · intro p hp
    obtain ⟨hpm, hpne⟩ := mem_mapRemove hp
    have hold := h1 p hpm
    have hne : p.2 ≠ k := by
      intro he
      rw [he, hl] at hold
      simp only [Option.map_some'] at hold
      injection hold with hh
      exact hpne hh.symm
    rw [mapLookup_mapRemove_ne _ _ _ hne]
    exact hold
  · intro q hq
    obtain ⟨hqm, hqne⟩ := mem_mapRemove hq
    have hold := h2 q hqm
    have hne : q.2.hashVal ≠ v.hashVal := by
      intro he
      rw [he, hbk] at hold
      injection hold with hh
      exact hqne hh.symm
    rw [mapLookup_mapRemove_ne _ _ _ hne]
    exact hold

theorem consistent_delete_blockhash {db : Db} {h : Nat} {i : Nat}
    (hc : headerIndexConsistent db = true)
    (hl : mapLookup db.block_hashes h = some i) :
    headerIndexConsistent
      { db with
        block_hashes := mapRemove db.block_hashes h
        headers := mapRemove db.headers i } = true := by
  rw [headerIndexConsistent_iff] at hc ⊢
  obtain ⟨h1, h2⟩ := hc
  have hhi : (h, i) ∈ db.block_hashes := mem_of_mapLookup_eq_some hl
  have hv := h1 (h, i) hhi
  constructor
  · intro p hp
    obtain ⟨hpm, hpne⟩ := mem_mapRemove hp
    have hold := h1 p hpm
    have hne : p.2 ≠ i := by
      intro he
      rw [he, hv] at hold
      injection hold with hh
      exact hpne hh.symm
    rw [mapLookup_mapRemove_ne _ _ _ hne]
    exact hold
  · intro q hq
    obtain ⟨hqm, hqne⟩ := mem_mapRemove hq
    have hold := h2 q hqm
    have hne : q.2.hashVal ≠ h := by
      intro he
      rw [he, hl] at hold
      injection hold with hh
      exact hqne hh.symm
    rw [mapLookup_mapRemove_ne _ _ _ hne]
    exact hold

theorem headerIndexConsistent_applyOp {op : WriteOperation} {db db1 : Db}
    (hc : headerIndexConsistent db = true) (hs : safeOp op db = true)
    (ha : applyOp op db = .ok db1) : headerIndexConsistent db1 = true := by
  cases op with
  | Insert p =>
    cases p with
    | Metadata k v =>
      simp only [applyOp, Except.ok.injEq] at ha
      subst ha
      exact headerIndexConsistent_congr rfl rfl hc
    | BlockHeader k v =>
      simp only [applyOp] at ha
      split at ha
      · exact Except.noConfusion ha
      · next hdup =>
        rw [Except.ok.injEq] at ha
        subst ha
        have hdup' : mapLookup db.headers k = none :=
          Option.not_isSome_iff_eq_none.mp hdup
        have hsafe : mapLookup db.block_hashes v.hashVal = none := by
          simp only [safeOp, Option.isNone_iff_eq_none] at hs
          exact hs
        exact consistent_insert_header hc hdup' hsafe
    | UnspentOutput k v u =>
      cases u <;>
        · simp only [applyOp] at ha
          split at ha
          · exact Except.noConfusion ha
          · split at ha <;>
              · rw [Except.ok.injEq] at ha
                subst ha
                exact headerIndexConsistent_congr rfl rfl hc
    | TransactionKernel k v u =>
      cases u <;>
        · simp only [applyOp] at ha
          split at ha
          · exact Except.noConfusion ha
          · rw [Except.ok.injEq] at ha
            subst ha
            exact headerIndexConsistent_congr rfl rfl hc
    | OrphanBlock k v =>
      simp only [applyOp, Except.ok.injEq] at ha
      subst ha
      exact headerIndexConsistent_congr rfl rfl hc
  | Delete key =>
    cases key with
    | Metadata k =>
      simp only [applyOp, Except.ok.injEq] at ha
      subst ha
      exact hc
    | BlockHeader k =>
      simp only [applyOp] at ha
      cases hl : mapLookup db.headers k with
      | some v =>
        rw [hl, Except.ok.injEq] at ha
        subst ha
        exact consistent_delete_header hc hl
      | none =>
        rw [hl, Except.ok.injEq] at ha
        subst ha
        exact hc
    | BlockHash h =>
      simp only [applyOp] at ha
      cases hl : mapLookup db.block_hashes h with
      | some i =>
        rw [hl, Except.ok.injEq] at ha
        subst ha
        exact consistent_delete_blockhash hc hl
      | none =>
        rw [hl, Except.ok.injEq] at ha
        subst ha
        exact hc
    | UnspentOutput k =>
      simp only [applyOp, Except.ok.injEq] at ha
      subst ha
      exact headerIndexConsistent_congr rfl rfl hc
    | SpentOutput k =>
      simp only [applyOp, Except.ok.injEq] at ha
      subst ha
      exact headerIndexConsistent_congr rfl rfl hc
    | TransactionKernel k =>
      simp only [applyOp, Except.ok.injEq] at ha
      subst ha
      exact headerIndexConsistent_congr rfl rfl hc
    | OrphanBlock k =>
      simp only [applyOp, Except.ok.injEq] at ha
      subst ha
      exact headerIndexConsistent_congr rfl rfl hc
  | Spend key =>
    cases key with
    | UnspentOutput h =>
      simp only [applyOp] at ha
      cases hsv : spend_utxo db h with
      | none => rw [hsv] at ha; exact Except.noConfusion ha
      | some d =>
        rw [hsv, Except.ok.injEq] at ha
        subst ha
        simp only [spend_utxo] at hsv
        split at hsv
        · exact Option.noConfusion hsv
        · rw [Option.some.injEq] at hsv
          subst hsv
          exact headerIndexConsistent_congr rfl rfl hc
    | Metadata k => exact Except.noConfusion ha
    | BlockHeader k => exact Except.noConfusion ha
    | BlockHash k => exact Except.noConfusion ha
    | SpentOutput k => exact Except.noConfusion ha
    | TransactionKernel k => exact Except.noConfusion ha
    | OrphanBlock k => exact Except.noConfusion ha
  | UnSpend key =>
    cases key with
    | SpentOutput h =>
      simp only [applyOp] at ha
      cases hsv : unspend_stxo db h with
      | none => rw [hsv] at ha; exact Except.noConfusion ha
      | some d =>
        rw [hsv, Except.ok.injEq] at ha
        subst ha
        simp only [unspend_stxo] at hsv
        split at hsv
        · exact Option.noConfusion hsv
        · rw [Option.some.injEq] at hsv
          subst hsv
          exact headerIndexConsistent_congr rfl rfl hc
    | Metadata k => exact Except.noConfusion ha
    | BlockHeader k => exact Except.noConfusion ha
    | BlockHash k => exact Except.noConfusion ha
    | UnspentOutput k => exact Except.noConfusion ha
    | TransactionKernel k => exact Except.noConfusion ha
    | OrphanBlock k => exact Except.noConfusion ha
  | CreateMmrCheckpoint t =>
    cases t <;>
      · simp only [applyOp, Except.ok.injEq] at ha
        subst ha
        exact headerIndexConsistent_congr rfl rfl hc
  | RewindMmr t steps =>
    cases t with
    | Kernel =>
      simp only [applyOp] at ha
      cases hr : rewind_checkpoints db.kernel_checkpoints steps with
      | error e => rw [hr] at ha; exact Except.noConfusion ha
      | ok pr =>
        rw [hr] at ha
        obtain ⟨cps, last_cp⟩ := pr
        rw [Except.ok.injEq] at ha
        subst ha
        exact headerIndexConsistent_congr rfl rfl hc
    | Utxo =>
      simp only [applyOp] at ha
      cases hr : rewind_checkpoints db.utxo_checkpoints steps with
      | error e => rw [hr] at ha; exact Except.noConfusion ha
      | ok pr =>
        rw [hr] at ha
        obtain ⟨cps, last_cp⟩ := pr
        rw [Except.ok.injEq] at ha
        subst ha
        exact headerIndexConsistent_congr rfl rfl hc
    | RangeProof =>
      simp only [applyOp] at ha
      cases hr : rewind_checkpoints db.range_proof_checkpoints steps with
      | error e => rw [hr] at ha; exact Except.noConfusion ha
      | ok pr =>
        rw [hr] at ha
        obtain ⟨cps, last_cp⟩ := pr
        rw [Except.ok.injEq] at ha
        subst ha
        exact headerIndexConsistent_congr rfl rfl hc

/-- C6 (counterexample): inserting the same header at heights 0 and 1 in
one successful transaction yields a state whose stored headers trivially
satisfy "distinct stored headers have distinct hashes", yet
`headers[0] = h` while `block_hashes[h.hash()] = 1 ≠ 0`, so the claimed
equivalence fails at height 0. -/
theorem header_index_consistency_counterexample :
    storedHeadersHashDistinct c6Db = true ∧
    mapLookup c6Db.headers 0 = some c6Hdr ∧
    mapLookup c6Db.block_hashes c6Hdr.hashVal = some 1 ∧
    mapLookup c6Db.block_hashes c6Hdr.hashVal ≠ some 0 := by decide

/-- C6 (amended): provided no transaction ever inserts a header whose hash
is already present in the block-hash index (`safeOps`, so no header comes
to occupy two heights), every successful transaction preserves agreement
between `headers` and `block_hashes`: every index entry
`block_hashes[hash] = height` points at a stored header with that hash,
and every stored header `headers[height] = h` is indexed by
`block_hashes[h.hash()] = height`.  `Delete(BlockHeader(height))` removes
both entries and a non-duplicate insert adds both, as the `applyOp` cases
of the proof show. -/
theorem header_index_consistency_preserved (ops : List WriteOperation) :
    ∀ db db1, headerIndexConsistent db = true → safeOps ops db = true →
      write ops db = .ok db1 → headerIndexConsistent db1 = true := by
  induction ops with
  | nil =>
    intro db db1 hc _ hw
    simp only [write, Except.ok.injEq] at hw
    subst hw
    exact hc
  | cons op rest ih =>
    intro db db1 hc hs hw
    simp only [safeOps, Bool.and_eq_true] at hs
    obtain ⟨hs1, hs2⟩ := hs
    simp only [write] at hw
    cases ha : applyOp op db with
    | error e => rw [ha] at hw; exact Except.noConfusion hw
    | ok dbm =>
      rw [ha] at hw hs2
      exact ih dbm db1 (headerIndexConsistent_applyOp hc hs1 ha) hs2 hw

/-- Witness for the amended C6: inserting two distinct headers at heights
0 and 1 and deleting the first leaves a consistent header/index pair. -/
theorem header_index_consistency_preserved_witness :
    headerIndexConsistent c6WitnessDb = true :=
  header_index_consistency_preserved c6WitnessOps emptyDb c6WitnessDb
    (by decide) (by decide) (by decide)

/-! ## Claim C9 -/

theorem lastN_zero {α : Type} (l : List α) : lastN 0 l = [] := by
  simp [lastN]

theorem lastN_append_singleton {α : Type} (n : Nat) (l : List α) (x : α) :
    lastN (n + 1) (l ++ [x]) = lastN n l ++ [x] := by
  unfold lastN
  rw [List.length_append]
  simp only [List.length_cons, List.length_nil, Nat.zero_add]
  rw [Nat.succ_sub_succ]
  exact List.drop_append_of_le_length (Nat.sub_le _ _)

theorem tdLoop_eq_spec (headers : MapN BlockHeader) (algo : PowAlgorithm) (w : Nat) :
    ∀ (h : Nat) (acc : List (Nat × Nat)),
      acc.length < max w 1 →
      (∀ i, i ≤ h → (mapLookup headers i).isSome = true) →
      tdLoop headers algo w h acc =
        .ok (lastN (max w 1 - acc.length) (specTargetDifficulties algo headers h) ++ acc) := by
  intro h
  induction h with
  | zero =>
    intro acc hlen hpres
    obtain ⟨hdr, hh⟩ := Option.isSome_iff_exists.mp (hpres 0 (Nat.le_refl 0))
    by_cases hm : hdr.pow_algo = algo
    · have h0 : 1 - (max w 1 - acc.length) = 0 := by omega
      simp [tdLoop, hh, hm, specTargetDifficulties, lastN, h0]
    · simp [tdLoop, hh, hm, specTargetDifficulties, lastN]
  | succ h ih =>
    intro acc hlen hpres
    obtain ⟨hdr, hh⟩ := Option.isSome_iff_exists.mp (hpres (h + 1) (Nat.le_refl _))
    have hspec : specTargetDifficulties algo headers (h + 1) =
        specTargetDifficulties algo headers h ++
          (if hdr.pow_algo = algo then [(hdr.timestamp, hdr.target_difficulty)] else []) := by
      simp [specTargetDifficulties, hh]
    by_cases hm : hdr.pow_algo = algo
    · by_cases hbreak : w ≤ acc.length + 1
      · have hW : max w 1 - acc.length = 1 := by omega
        simp only [tdLoop, hh, hm, if_true]
        rw [if_pos (by simpa using hbreak)]
        rw [hspec, if_pos hm, hW]
        rw [lastN_append_singleton 0, lastN_zero]
        simp
      · have hlt : acc.length + 1 < max w 1 := by omega
        have hrec := ih ((hdr.timestamp, hdr.target_difficulty) :: acc)
          (by simpa using hlt) (fun i hi => hpres i (Nat.le_succ_of_le hi))
        simp only [tdLoop, hh, hm, if_true]
        rw [if_neg (by simpa using hbreak)]
        rw [hrec, hspec, if_pos hm]
        have hWs : max w 1 - acc.length = (max w 1 - (acc.length + 1)) + 1 := by omega
        rw [hWs, lastN_append_singleton]
        simp
    · simp only [tdLoop, hh, hm, if_false]
      rw [ih acc hlen (fun i hi => hpres i (Nat.le_succ_of_le hi)), hspec, if_neg hm]
      simp

/-- C9 (amended): when the chain-height metadata is absent the query fails
with `InvalidQuery`; when it is set to `tip_height`, headers exist at all
heights `0..=height`, and `height ≤ tip_height`, the query returns,
oldest-first, the `(timestamp, target_difficulty)` pairs of the
up-to-`max(window, 1)` most recent headers at heights `≤ height` whose
proof-of-work algorithm matches (a window of 0 behaves as a window of 1,
because the window check runs only after a push). -/
theorem fetch_target_difficulties_correct (db : Db) (algo : PowAlgorithm)
    (height window : Nat) :
    (fetch_chain_height db = none →
      fetch_target_difficulties db algo height window =
        .error (.InvalidQuery "Cannot retrieve chain height. Blockchain DB is empty")) ∧
    (∀ tip, fetch_chain_height db = some tip → height ≤ tip →
      (∀ i, i ≤ height → (mapLookup db.headers i).isSome = true) →
      fetch_target_difficulties db algo height window =
        .ok (lastN (max window 1) (specTargetDifficulties algo db.headers height))) := by
  constructor
  · intro h
    simp [fetch_target_difficulties, h]
  · intro tip htip hle hpres
    simp only [fetch_target_difficulties, htip, if_pos hle]
    rw [tdLoop_eq_spec db.headers algo window height [] (by simp) hpres]
    simp

/-- Witness for the amended C9: three headers at heights 0, 1, 2 (Blake,
Monero, Blake) with the tip at 2; a Blake scan with window 2 returns the
two Blake pairs oldest-first. -/
theorem fetch_target_difficulties_correct_witness :
    fetch_target_difficulties c9WitnessDb .Blake 2 2 = .ok [(5, 9), (7, 11)] :=
  (fetch_target_difficulties_correct c9WitnessDb .Blake 2 2).2 2 (by decide) (by decide)
    (by intro i hi; interval_cases i <;> decide)

/-! ## Claim C10 -/

/-- C10 (amended): `fetch_last_header` returns the header stored under key
`n - 1` where `n` is the number of stored headers (`none` when `n = 0`);
it returns the greatest-height header only when the stored heights are
exactly `{0, ..., n - 1}`; and whenever some stored height is `≥ n` (in
particular when the heights are non-contiguous or do not start at 0), it
returns either `none` or a header stored at height `n - 1` that is not the
greatest-height header. -/
theorem fetch_last_header_characterization (db : Db) (hnd : keysNodup db.headers) :
    (db.headers = [] → fetch_last_header db = none) ∧
    (∀ hdr, fetch_last_header db = some hdr →
      mapLookup db.headers (db.headers.length - 1) = some hdr) ∧
    (∀ hdr, fetch_last_header db = some hdr →
      (∀ p ∈ db.headers, p.1 < db.headers.length) →
      ∀ i, i < db.headers.length → ∃ v, (i, v) ∈ db.headers) ∧
    ((∃ p ∈ db.headers, db.headers.length ≤ p.1) →
      fetch_last_header db = none ∨
        ∃ hdr q, fetch_last_header db = some hdr ∧
          mapLookup db.headers (db.headers.length - 1) = some hdr ∧
          q ∈ db.headers ∧ db.headers.length - 1 < q.1) := by
  have hlook : ∀ hdr, fetch_last_header db = some hdr →
      mapLookup db.headers (db.headers.length - 1) = some hdr := by
    intro hdr hf
    by_cases hn : 1 ≤ db.headers.length
    · simpa [fetch_last_header, hn] using hf
    · simp [fetch_last_header, hn] at hf
  refine ⟨?_, hlook, ?_, ?_⟩
  · intro h
    simp [fetch_last_header, h]
  · intro hdr _ hbound i hi
    have hnodup : (db.headers.map Prod.fst).Nodup := hnd
    have hsub : (db.headers.map Prod.fst).toFinset ⊆
        Finset.range db.headers.length := by
      intro x hx
      rw [List.mem_toFinset] at hx
      obtain ⟨p, hp, rfl⟩ := List.mem_map.mp hx
      exact Finset.mem_range.mpr (hbound p hp)
    have hcard : (db.headers.map Prod.fst).toFinset.card = db.headers.length := by
      rw [List.toFinset_card_of_nodup hnodup, List.length_map]
    have heq : (db.headers.map Prod.fst).toFinset = Finset.range db.headers.length :=
      Finset.eq_of_subset_of_card_le hsub (by rw [hcard, Finset.card_range])
    have hin : i ∈ (db.headers.map Prod.fst).toFinset := by
      rw [heq]
      exact Finset.mem_range.mpr hi
    rw [List.mem_toFinset] at hin
    obtain ⟨p, hp, hpi⟩ := List.mem_map.mp hin
    obtain ⟨a, b⟩ := p
    obtain rfl : a = i := hpi
    exact ⟨b, hp⟩
  · rintro ⟨p, hp, hge⟩
    cases hf : fetch_last_header db with
    | none => exact Or.inl rfl
    | some hdr =>
      right
      have hne : db.headers ≠ [] := by
        intro h
        rw [h] at hp
        exact absurd hp (List.not_mem_nil p)
      have hpos : 1 ≤ db.headers.length := List.length_pos.mpr hne
      exact ⟨hdr, p, rfl, hlook hdr hf, hp, by omega⟩

/-- Witness for the amended C10: with headers at the contiguous heights 0
and 1, the last header is the one stored under key 1, and every height
below the count is occupied. -/
theorem fetch_last_header_characterization_witness :
    mapLookup c10WitnessDb.headers 1 = some ⟨61, 1, .Monero, 2⟩ ∧
    (∃ v, (0, v) ∈ c10WitnessDb.headers) :=
  ⟨(fetch_last_header_characterization c10WitnessDb (by unfold keysNodup; decide)).2.1
      ⟨61, 1, .Monero, 2⟩ (by decide),
   (fetch_last_header_characterization c10WitnessDb (by unfold keysNodup; decide)).2.2.1
      ⟨61, 1, .Monero, 2⟩ (by decide) (by decide) 0 (by decide)⟩

end TariMemDb
